import Mathlib

/-!
Shallow embedding of the InfluxDB plugin core (src/influxdb/main.py): the
value encoder, tag construction, grouping table (`_receive_metric_data`),
entry encoder (`_build_entry`) and the batch sender's queue drain
(`_sender`).  Python dicts are modelled as insertion-ordered association
lists (the source runs on Python 2, whose dicts are unordered; the claims
only depend on a deterministic iteration order, which the model fixes to
insertion order).  Python's dynamically typed scalar values are modelled by
the tagged union `PVal`; a float is carried as its `str()` decimal
rendering, since the source never computes with floats, it only re-renders
them.
-/

/-- A Python scalar value as it occurs in metric samples: string, bool,
int, or float (carried as its decimal `str()` rendering). -/
inductive PVal where
  | pstr (s : String)
  | pbool (b : Bool)
  | pint (n : Int)
  | pfloat (r : String)
deriving DecidableEq

/-- Python `str(value)` for the scalar kinds above (used by `format`). -/
def pyStr : PVal → String
  | PVal.pstr s => s
  | PVal.pbool b => if b then "True" else "False"
  | PVal.pint n => toString n
  | PVal.pfloat r => r

/-- Python `isinstance(value, basestring)`. -/
def isinstStr : PVal → Bool
  | PVal.pstr _ => true
  | _ => false

/-- Python `isinstance(value, bool)`. -/
def isinstBool : PVal → Bool
  | PVal.pbool _ => true
  | _ => false

/-- Python `isinstance(value, int)`.  In Python, `bool` is a subclass of
`int`, so a bool is an instance of `int` as well. -/
def isinstInt : PVal → Bool
  | PVal.pint _ => true
  | PVal.pbool _ => true
  | _ => false

/-- Line 132-133: `if isinstance(value, basestring): value = '"{0}"'.format(value)`. -/
def encodeStep1 (v : PVal) : PVal :=
  if isinstStr v then PVal.pstr ("\"" ++ pyStr v ++ "\"") else v

/-- Line 134-135: `if isinstance(value, bool): value = str(value)`. -/
def encodeStep2 (v : PVal) : PVal :=
  if isinstBool v then PVal.pstr (pyStr v) else v

/-- Line 136-137: `if isinstance(value, int): value = '{0}i'.format(value)`. -/
def encodeStep3 (v : PVal) : PVal :=
  if isinstInt v then PVal.pstr (pyStr v ++ "i") else v

/-- The value-encoding chain of lines 132-137: three successive `if`
statements (not `elif`), each rewriting `value` in place.  A string or a
bool has become a `PVal.pstr` before the `isinstance(value, int)` check
runs, which is why a bool never receives the `i` suffix. -/
def encodeValue (v : PVal) : PVal :=
  encodeStep3 (encodeStep2 (encodeStep1 v))

/-- The wire text of an encoded field value (a float is only stringified
later, by `format` inside `_build_entry`; `pyStr` performs that step). -/
def encodeField (v : PVal) : String :=
  pyStr (encodeValue v)

/-- Python `d.get(k)` on an (insertion-ordered) dict. -/
def dget {κ α : Type} [DecidableEq κ] : List (κ × α) → κ → Option α
  | [], _ => none
  | (k, v) :: rest, key => if k = key then some v else dget rest key

/-- Python `d[k] = v` on an (insertion-ordered) dict: overwrite in place
when the key exists, append otherwise. -/
def dset {κ α : Type} [DecidableEq κ] : List (κ × α) → κ → α → List (κ × α)
  | [], key, v => [(key, v)]
  | (k, w) :: rest, key, v =>
      if k = key then (key, v) :: rest else (k, w) :: dset rest key v

/-- Python `s.replace(' ', '\ ')`: since the pattern is the single space
character, the replacement acts character by character; computed over the
character list so that it evaluates inside the kernel (the built-in
replace loop of core does not). -/
def escapeSpaces (s : String) : String :=
  String.mk (s.data.foldr
    (fun c acc => (if c = ' ' then ['\\', ' '] else [c]) ++ acc) [])

/-- Line 140-143: a string tag value has each space escaped with a
backslash (`metric[tag].replace(' ', '\ ')`); other values are kept as is. -/
def escapeTagValue (v : PVal) : PVal :=
  if isinstStr v then PVal.pstr (escapeSpaces (pyStr v)) else v

/-- Python `str.lower()` as applied to the metric source (line 124);
ASCII lowercasing, computed over the character list so that it evaluates
inside the kernel (the built-in mapping recursion of core does not). -/
def pyLower (s : String) : String :=
  String.mk (s.data.map Char.toLower)

/-- Lines 138-143, the loop body: for each declared tag key, read the
sample's attribute (`metric[tag]`; a missing key raises `KeyError`,
modelled as `Except.error`) and store its escaped value. -/
def buildTagsGo (attrs : List (String × PVal)) :
    List String → List (String × PVal) → Except String (List (String × PVal))
  | [], acc => Except.ok acc
  | t :: rest, acc =>
      match dget attrs t with
      | none => Except.error ("KeyError: " ++ t)
      | some v => buildTagsGo attrs rest (dset acc t (escapeTagValue v))

/-- Lines 138-143: `tags = {'type': source}` followed by one entry per key
in `definition['tags']`, read from the sample's attribute mapping. -/
def buildTags (source : String) (dtags : List String)
    (attrs : List (String × PVal)) : Except String (List (String × PVal)) :=
  buildTagsGo attrs dtags [("type", PVal.pstr source)]

/-- One open group of the grouping table: the source list
`[timestamp, tags, fields]` (timestamp in nanoseconds, fields mapping
metric name to the already-encoded value). -/
structure PendingGroup where
  ts : Nat
  tags : List (String × PVal)
  fields : List (String × PVal)
deriving DecidableEq

/-- Lines 149-152: the per-group match test.  Only the keys of the
sample's definition's tag list are compared (`tags[tag] !=
pending[1].get(tag)`); the `type` key and any other keys the pending
group may carry are not examined. -/
def tagsAgree (dtags : List String) (tags ptags : List (String × PVal)) : Bool :=
  dtags.all fun t => decide (dget tags t = dget ptags t)

/-- Lines 147-161: scan the bucket's open groups in order; at the first
group whose tags agree (per `tagsAgree`), either merge the field in
(timestamps equal; `pending[2][metric['metric']] = value`) or close the
group (remove it, reporting it as the closed group), then stop
(`break`).  Returns (new group list, closed group if any, `found`). -/
def scanGroups (dtags : List String) (tags : List (String × PVal)) (ts : Nat)
    (name : String) (v : PVal) : List PendingGroup → List PendingGroup × Option PendingGroup × Bool
  | [] => ([], none, false)
  | g :: rest =>
      if tagsAgree dtags tags g.tags then
        if g.ts = ts then
          (⟨g.ts, g.tags, dset g.fields name v⟩ :: rest, none, true)
        else
          (rest, some g, false)
      else
        let r := scanGroups dtags tags ts name v rest
        (g :: r.1, r.2.1, r.2.2)

/-- Lines 145-163 on one bucket: run the scan, and when no merge happened
(`found is False`) append the fresh group `[timestamp, tags,
{metric['metric']: value}]`.  Returns the new bucket and the group closed
by this sample, if any. -/
def bucketStep (dtags : List String) (tags : List (String × PVal)) (ts : Nat)
    (name : String) (v : PVal) (entries : List PendingGroup) :
    List PendingGroup × Option PendingGroup :=
  let r := scanGroups dtags tags ts name v entries
  (if r.2.2 = true then r.1 else r.1 ++ [⟨ts, tags, [(name, v)]⟩], r.2.1)

/-- The definitions mapping: source, then metric family (`type`), then
metric name, to the definition's declared tag-key list (the only part of
a definition the core reads is `definition['tags']`). -/
abbrev Defs := List (String × List (String × List (String × List String)))

/-- Line 128: `self._definitions.get(metric['source'], {}).get(metric_type,
{}).get(metric['metric'])`. -/
def defsLookup (d : Defs) (source mtype name : String) : Option (List String) :=
  dget (dget ((dget d source).getD []) mtype |>.getD []) name

/-- One incoming metric sample.  The source represents a sample as one
flat dict; the model separates the fixed keys (`source`, `type`,
`metric`, `timestamp`, `value`) from the remaining attributes, which are
what the declared tag keys are read from. -/
structure Metric where
  source : String
  mtype : String
  metric : String
  timestamp : Nat
  value : PVal
  attrs : List (String × PVal)

/-- The mutable plugin state touched by ingestion: the enabled flag
(line 77), the definitions snapshot (`None` until loaded), the grouping
table `self._pending_metrics` (nested dicts keyed by lowered source and
metric family, flattened here to one pair key), and the dispatch deque
`self._send_queue` (head of the list = left end of the deque). -/
structure PluginState where
  enabled : Bool
  definitions : Option Defs
  pending : List ((String × String) × List PendingGroup)
  sendQueue : List String

/-- Binary bit length of a natural number (0 for 0), computed with a
structural fuel so that it evaluates inside the kernel; the fuel of 1100
covers every value below 2^1100, far beyond the double overflow
threshold. -/
def bitSizeGo : Nat → Nat → Nat
  | 0, _ => 0
  | fuel + 1, n => if n = 0 then 0 else bitSizeGo fuel (n / 2) + 1

/-- Bit length of a natural number below 2^1100. -/
def bitSize (n : Nat) : Nat :=
  bitSizeGo 1100 n

/-- IEEE-754 double rounding of a natural number, as performed by
Python's `'{:.0f}'.format(timestamp)` (line 178): the int is converted to
the nearest double (round half to even on the 53-bit significand) and an
integral double prints exactly under `.0f`.  Exact for every value up to
2^53; faithful to CPython for every value below the double overflow
threshold, far beyond any timestamp. -/
def roundF53 (n : Nat) : Nat :=
  if n ≤ 2 ^ 53 then n
  else
    let s := bitSize n - 53
    let q := n / 2 ^ s
    let r := n % 2 ^ s
    let half := 2 ^ (s - 1)
    let q' := if r < half then q
      else if half < r then q + 1
      else if q % 2 = 0 then q else q + 1
    q' * 2 ^ s

/-- The `value` argument of `_build_entry`: either a fields dict or a bare
scalar (line 169-173 branches on `isinstance(value, dict)`). -/
inductive FieldsArg where
  | dict (d : List (String × PVal))
  | scalar (v : PVal)

/-- Comma-join of a dict as `'{0}={1}'.format(name, value)` items
(lines 170-171 and 175-176); `format` stringifies the value via `str`. -/
def joinKV (d : List (String × PVal)) : String :=
  String.intercalate "," (d.map fun p => p.1 ++ "=" ++ pyStr p.2)

/-- Lines 167-178, `_build_entry`: one line-protocol record
`'{0},{1} {2}{3}'` with the comma-joined tags, the comma-joined fields
(or `value=...` for a non-dict), and, unless the timestamp is `None`, a
trailing space plus `'{:.0f}'` of the timestamp. -/
def buildEntry (key : String) (tags : List (String × PVal))
    (value : FieldsArg) (timestamp : Option Nat) : String :=
  let values := match value with
    | FieldsArg.dict d => joinKV d
    | FieldsArg.scalar v => "value=" ++ pyStr v
  key ++ "," ++ joinKV tags ++ " " ++ values ++
    (match timestamp with
     | none => ""
     | some ts => " " ++ toString (roundF53 ts))

/-- Lines 119-163, `_receive_metric_data`, as the fallible body inside the
`try`: the early returns (disabled, definitions not loaded, unknown
metric) leave the state unchanged; otherwise encode the value, build the
tag set (which may raise `KeyError`), update the `(source.lower(),
metric_type)` bucket, and push any closed group's rendered entry onto the
left of the dispatch deque (`appendleft`, line 159). -/
def tryReceive (st : PluginState) (m : Metric) : Except String PluginState :=
  if st.enabled = false then Except.ok st else
  match st.definitions with
  | none => Except.ok st
  | some defs =>
      let metricType := m.mtype
      let source := pyLower m.source
      let timestamp := m.timestamp * 1000000000
      match defsLookup defs m.source metricType m.metric with
      | none => Except.ok st
      | some dtags =>
          let value := encodeValue m.value
          match buildTags source dtags m.attrs with
          | Except.error e => Except.error e
          | Except.ok tags =>
              let entries := (dget st.pending (source, metricType)).getD []
              let r := bucketStep dtags tags timestamp m.metric value entries
              Except.ok { st with
                pending := dset st.pending (source, metricType) r.1,
                sendQueue :=
                  match r.2 with
                  | some g =>
                      buildEntry metricType g.tags (FieldsArg.dict g.fields)
                        (some g.ts) :: st.sendQueue
                  | none => st.sendQueue }

/-- Lines 119-165, `_receive_metric_data` including the surrounding
`try/except`: any exception from the body is caught (and logged), leaving
the state as it was. -/
def receiveMetricData (st : PluginState) (m : Metric) : PluginState :=
  match tryReceive st m with
  | Except.ok st' => st'
  | Except.error _ => st

/-- Python `deque.pop()`: remove and return the rightmost element
(raising `IndexError`, i.e. `none`, on an empty deque). -/
def popBack {α : Type} : List α → Option (α × List α)
  | [] => none
  | [x] => some (x, [])
  | x :: y :: rest =>
      match popBack (y :: rest) with
      | some (z, front) => some (z, x :: front)
      | none => none

/-- Lines 183-190, the sender's drain loop: repeatedly `pop()` from the
deque into `data`, stopping when the deque empties (`IndexError`) or
`len(data) == batch_size`.  The loop removes one element per iteration,
so a fuel of the initial queue length makes the recursion structural
without changing its result. -/
def drainGo (batchSize : Nat) : Nat → List String → List String →
    List String × List String
  | 0, queue, data => (data, queue)
  | fuel + 1, queue, data =>
      match popBack queue with
      | none => (data, queue)
      | some (x, rest) =>
          if (data ++ [x]).length = batchSize then (data ++ [x], rest)
          else drainGo batchSize fuel rest (data ++ [x])

/-- One execution of the drain loop of lines 183-190, starting from an
empty `data` list. -/
def senderDrain (batchSize : Nat) (queue : List String) :
    List String × List String :=
  drainGo batchSize queue.length queue []

/-- Lines 183-198, one sender cycle: drain, and when at least one entry
was drained, issue one POST whose body is the newline-join of the batch
(line 194-195).  Returns (drained batch, remaining queue, POST body if a
request was made). -/
def senderCycle (batchSize : Nat) (queue : List String) :
    List String × List String × Option String :=
  let r := senderDrain batchSize queue
  (r.1, r.2, if 0 < r.1.length then some (String.intercalate "\n" r.1) else none)

/-- The consumer side run to exhaustion: the sequence of entries obtained
by repeatedly applying `deque.pop()` until the deque is empty (the order
in which the sender, over however many cycles, sees the entries). -/
def drainAllGo : Nat → List String → List String
  | 0, _ => []
  | fuel + 1, queue =>
      match popBack queue with
      | none => []
      | some (x, rest) => x :: drainAllGo fuel rest

/-- All entries of the deque in consumption (pop-back) order. -/
def drainAll (queue : List String) : List String :=
  drainAllGo queue.length queue

/-- The producer side: push each entry of `l`, in order, onto the left of
the deque (`appendleft`, line 159). -/
def pushFrontAll (l : List String) (queue : List String) : List String :=
  l.foldl (fun acc e => e :: acc) queue

/-- Definitions for the C1 counterexample: two metrics of one family with
different declared tag-key lists. -/
def defsC1 : Defs := [("s", [("f", [("a", ["k"]), ("b", [])])])]

/-- State reached by ingesting a sample of metric `a` (with tag k = v)
and then a sample of metric `b`, whose definition declares no tag keys. -/
def stC1 : PluginState :=
  receiveMetricData
    (receiveMetricData (PluginState.mk true (some defsC1) [] [])
      (Metric.mk "s" "f" "a" 1 (PVal.pint 1) [("k", PVal.pstr "v")]))
    (Metric.mk "s" "f" "b" 1 (PVal.pint 2) [])

/-- Definitions for the C4 counterexample: metrics `a` and `c` of one
family declare the different tag-key lists `[k]` and `[k, j]`. -/
def defsC4 : Defs := [("s", [("f", [("a", ["k"]), ("c", ["k", "j"])])])]

/-- State reached by four ingestions: metric `a` at t=2, metric `c` at
t=3 (extra tag j), metric `a` at t=3 (closes the t=2 group), metric `a`
at t=4 (spuriously matches the `c` group on key `k` alone and closes it,
then appends a fresh group — leaving the bucket with two open groups of
identical TagSet `{type: s, k: v}`). -/
def stC4 : PluginState :=
  receiveMetricData (receiveMetricData (receiveMetricData (receiveMetricData
    (PluginState.mk true (some defsC4) [] [])
    (Metric.mk "s" "f" "a" 2 (PVal.pint 1) [("k", PVal.pstr "v")]))
    (Metric.mk "s" "f" "c" 3 (PVal.pint 2)
      [("k", PVal.pstr "v"), ("j", PVal.pstr "w")]))
    (Metric.mk "s" "f" "a" 3 (PVal.pint 3) [("k", PVal.pstr "v")]))
    (Metric.mk "s" "f" "a" 4 (PVal.pint 4) [("k", PVal.pstr "v")])

/-! Helper lemmas about the dict model. -/

theorem dget_dset_self {κ α : Type} [DecidableEq κ] (d : List (κ × α)) (k : κ)
    (v : α) : dget (dset d k v) k = some v := by
  induction d with
  | nil => simp [dget, dset]
  | cons p rest ih =>
      obtain ⟨k', w⟩ := p
      by_cases h : k' = k
      · subst h
        simp [dget, dset]
      · simp [dget, dset, h, ih]

theorem dset_keys_of_mem {κ α : Type} [DecidableEq κ] (d : List (κ × α)) (k : κ)
    (v : α) (hmem : k ∈ d.map Prod.fst) :
    (dset d k v).map Prod.fst = d.map Prod.fst := by
  induction d with
  | nil => simp at hmem
  | cons p rest ih =>
      obtain ⟨k', w⟩ := p
      by_cases h : k' = k
      · subst h
        simp [dset]
      · simp [dset, h]
        apply ih
        simp at hmem
        rcases hmem with hmem | hmem
        · exact absurd hmem.symm h
        · simpa using hmem

theorem dset_keys_mono {κ α : Type} [DecidableEq κ] (d : List (κ × α)) (k : κ)
    (v : α) (a : κ) (ha : a ∈ d.map Prod.fst) :
    a ∈ (dset d k v).map Prod.fst := by
  induction d with
  | nil => simp at ha
  | cons p rest ih =>
      obtain ⟨k', w⟩ := p
      by_cases h : k' = k
      · subst h
        simp [dset]
        simp at ha
        exact ha
      · simp [dset, h]
        simp at ha
        rcases ha with ha | ha
        · exact Or.inl ha
        · exact Or.inr (by simpa using ih (by simpa using ha))

/-! Helper lemmas about the tag-agreement test of the scan. -/

theorem tagsAgree_iff (dtags : List String) (a b : List (String × PVal)) :
    tagsAgree dtags a b = true ↔ ∀ t ∈ dtags, dget a t = dget b t := by
  simp [tagsAgree]

theorem tagsAgree_refl (dtags : List String) (a : List (String × PVal)) :
    tagsAgree dtags a a = true := by
  simp [tagsAgree_iff]

theorem tagsAgree_symm (dtags : List String) (a b : List (String × PVal))
    (h : tagsAgree dtags a b = true) : tagsAgree dtags b a = true := by
  rw [tagsAgree_iff] at h ⊢
  intro t ht
  exact (h t ht).symm

theorem tagsAgree_trans (dtags : List String) (a b c : List (String × PVal))
    (hab : tagsAgree dtags a b = true) (hac : tagsAgree dtags a c = true) :
    tagsAgree dtags b c = true := by
  rw [tagsAgree_iff] at hab hac ⊢
  intro t ht
  exact (hab t ht).symm.trans (hac t ht)

/-! Characterisation of the scan of lines 147-161. -/

theorem scanGroups_no_match (dtags : List String) (tags : List (String × PVal))
    (ts : Nat) (name : String) (v : PVal) (entries : List PendingGroup)
    (h : ∀ g ∈ entries, tagsAgree dtags tags g.tags = false) :
    scanGroups dtags tags ts name v entries = (entries, none, false) := by
  induction entries with
  | nil => rfl
  | cons g rest ih =>
      have hg := h g (List.mem_cons_self g rest)
      have hrest := ih fun x hx => h x (List.mem_cons_of_mem g hx)
      simp [scanGroups, hg, hrest]

theorem scanGroups_first_hit (dtags : List String) (tags : List (String × PVal))
    (ts : Nat) (name : String) (v : PVal) (pre : List PendingGroup)
    (g : PendingGroup) (post : List PendingGroup)
    (hpre : ∀ h ∈ pre, tagsAgree dtags tags h.tags = false)
    (hg : tagsAgree dtags tags g.tags = true) :
    scanGroups dtags tags ts name v (pre ++ g :: post) =
      if g.ts = ts then
        (pre ++ ⟨g.ts, g.tags, dset g.fields name v⟩ :: post, none, true)
      else (pre ++ post, some g, false) := by
  induction pre with
  | nil =>
      by_cases hts : g.ts = ts <;> simp [scanGroups, hg, hts]
  | cons p rest ih =>
      have hp := hpre p (List.mem_cons_self p rest)
      have ihr := ih fun x hx => hpre x (List.mem_cons_of_mem p hx)
      by_cases hts : g.ts = ts <;> simp [scanGroups, hp, ihr, hts]

theorem scanGroups_cases (dtags : List String) (tags : List (String × PVal))
    (entries : List PendingGroup) :
    (∀ g ∈ entries, tagsAgree dtags tags g.tags = false) ∨
    ∃ pre g post, entries = pre ++ g :: post ∧
      (∀ h ∈ pre, tagsAgree dtags tags h.tags = false) ∧
      tagsAgree dtags tags g.tags = true := by
  induction entries with
  | nil => exact Or.inl (by simp)
  | cons g rest ih =>
      by_cases hg : tagsAgree dtags tags g.tags = true
      · exact Or.inr ⟨[], g, rest, by simp, by simp, hg⟩
      · have hg' : tagsAgree dtags tags g.tags = false := by
          simpa using hg
        rcases ih with h | ⟨pre, x, post, heq, hpre, hx⟩
        · refine Or.inl ?_
          intro y hy
          rcases List.mem_cons.mp hy with hy | hy
          · exact hy ▸ hg'
          · exact h y hy
        · refine Or.inr ⟨g :: pre, x, post, by simp [heq], ?_, hx⟩
          intro y hy
          rcases List.mem_cons.mp hy with hy | hy
          · exact hy ▸ hg'
          · exact hpre y hy

/-! Helper lemmas about the dispatch deque and the sender's drain loop. -/

theorem popBack_concat {α : Type} (l : List α) (x : α) :
    popBack (l ++ [x]) = some (x, l) := by
  induction l with
  | nil => rfl
  | cons a l ih =>
      cases l with
      | nil => rfl
      | cons b l' =>
          simp only [List.cons_append, popBack, List.append_eq] at ih ⊢
          rw [ih]

theorem drainAllGo_spec (fuel : Nat) (q : List String) (h : q.length ≤ fuel) :
    drainAllGo fuel q = q.reverse := by
  induction fuel generalizing q with
  | zero =>
      have : q = [] := List.eq_nil_of_length_eq_zero (Nat.le_zero.mp h)
      subst this
      rfl
  | succ fuel ih =>
      rcases List.eq_nil_or_concat q with rfl | ⟨l, x, rfl⟩
      · rfl
      · rw [List.concat_eq_append] at h ⊢
        simp only [drainAllGo, popBack_concat]
        rw [ih l (by simpa using Nat.le_of_succ_le_succ (by simpa using h))]
        simp

theorem drainAll_eq_reverse (q : List String) : drainAll q = q.reverse :=
  drainAllGo_spec q.length q (Nat.le_refl _)

theorem pushFrontAll_spec (l q : List String) :
    pushFrontAll l q = l.reverse ++ q := by
  induction l generalizing q with
  | nil => rfl
  | cons a l ih =>
      simp only [pushFrontAll, List.foldl_cons] at ih ⊢
      rw [ih (a :: q)]
      simp

theorem drainGo_zero_batch (fuel : Nat) (q data : List String)
    (h : q.length ≤ fuel) : drainGo 0 fuel q data = (data ++ q.reverse, []) := by
  induction fuel generalizing q data with
  | zero =>
      have : q = [] := List.eq_nil_of_length_eq_zero (Nat.le_zero.mp h)
      subst this
      simp [drainGo]
  | succ fuel ih =>
      rcases List.eq_nil_or_concat q with rfl | ⟨l, x, rfl⟩
      · simp [drainGo, popBack]
      · rw [List.concat_eq_append] at h ⊢
        simp only [drainGo, popBack_concat]
        have hlen : (data ++ [x]).length ≠ 0 := by simp
        rw [if_neg hlen]
        rw [ih l (data ++ [x]) (by simpa using Nat.le_of_succ_le_succ (by simpa using h))]
        simp

theorem drainGo_spec (b : Nat) (fuel : Nat) :
    ∀ q data : List String, q.length ≤ fuel → data.length < b →
    drainGo b fuel q data =
      (data ++ q.reverse.take (b - data.length),
       (q.reverse.drop (b - data.length)).reverse) := by
  induction fuel with
  | zero =>
      intro q data hq hd
      have : q = [] := List.eq_nil_of_length_eq_zero (Nat.le_zero.mp hq)
      subst this
      simp [drainGo]
  | succ fuel ih =>
      intro q data hq hd
      rcases List.eq_nil_or_concat q with rfl | ⟨l, x, rfl⟩
      · simp [drainGo, popBack]
      · rw [List.concat_eq_append] at hq ⊢
        simp only [drainGo, popBack_concat]
        have hql : l.length ≤ fuel := by simpa using Nat.le_of_succ_le_succ (by simpa using hq)
        by_cases hstop : (data ++ [x]).length = b
        · rw [if_pos hstop]
          have h1 : b - data.length = 1 := by
            simp at hstop
            omega
          simp [h1, List.reverse_append]
        · rw [if_neg hstop]
          have hd' : (data ++ [x]).length < b := by
            simp at hstop ⊢
            omega
          rw [ih l (data ++ [x]) hql hd']
          have h2 : b - data.length = (b - (data ++ [x]).length) + 1 := by
            simp at hstop ⊢
            omega
          rw [h2]
          simp [List.reverse_append, List.take_succ_cons, List.drop_succ_cons,
            List.append_assoc]

theorem senderDrain_spec (b : Nat) (hb : 1 ≤ b) (q : List String) :
    senderDrain b q = (q.reverse.take b, (q.reverse.drop b).reverse) := by
  unfold senderDrain
  rw [drainGo_spec b q.length q [] (Nat.le_refl _) (by simpa using hb)]
  simp

theorem senderDrain_zero (q : List String) : senderDrain 0 q = (q.reverse, []) := by
  unfold senderDrain
  rw [drainGo_zero_batch q.length q [] (Nat.le_refl _)]
  simp

/-! Claim theorems. -/

/-- C2 counterexample: the source encodes the boolean `True` through
Python's `str(value)`, which yields the capitalised text `True`, not the
lowercase literal `true` stated by the claim. -/
theorem c2_counterexample :
    encodeField (PVal.pbool true) = "True" ∧
    encodeField (PVal.pbool true) ≠ "true" := by
  constructor
  · rfl
  · decide

/-- C2 (amended): for every boolean input value the encoder produces
Python's `str()` rendering — the text `True` or `False` (capitalised, not
the lowercase `true`/`false` of the claim) — and, although a boolean
satisfies the `isinstance(value, int)` test, it is never encoded with the
integer `i` suffix, because the boolean branch has already rewritten the
value to a string before the integer branch runs. -/
theorem c2_bool_encoding :
    encodeField (PVal.pbool true) = "True" ∧
    encodeField (PVal.pbool false) = "False" ∧
    isinstInt (PVal.pbool true) = true ∧
    isinstInt (PVal.pbool false) = true ∧
    (encodeField (PVal.pbool true)).data.getLast? ≠ some 'i' ∧
    (encodeField (PVal.pbool false)).data.getLast? ≠ some 'i' := by
  refine ⟨rfl, rfl, rfl, rfl, ?_, ?_⟩ <;> decide

/-- C8: a string field value is wrapped in double quotes with its text
unchanged (no internal-quote escaping), an integer renders as its decimal
digits followed by the suffix `i`, and a float renders as its plain
decimal representation with no suffix. -/
theorem c8_scalar_encodings (s : String) (n : Int) (r : String) :
    encodeField (PVal.pstr s) = "\"" ++ s ++ "\"" ∧
    encodeField (PVal.pint n) = toString n ++ "i" ∧
    encodeField (PVal.pfloat r) = r :=
  ⟨rfl, rfl, rfl⟩

/-- C5: the producer's `appendleft` and the consumer's `pop` give
first-in-first-out delivery: entries pushed in order A, B, C are drained
in order A, B, C, and a bounded drain (one sender batch) followed by the
rest of the queue preserves exactly that order across batch
boundaries. -/
theorem c5_queue_fifo (l : List String) (n : Nat) (q : List String) :
    drainAll (pushFrontAll l []) = l ∧
    (senderDrain n q).1 ++ drainAll (senderDrain n q).2 = drainAll q := by
  constructor
  · rw [pushFrontAll_spec, List.append_nil, drainAll_eq_reverse,
      List.reverse_reverse]
  · rcases Nat.eq_zero_or_pos n with rfl | hn
    · rw [senderDrain_zero]
      simp [drainAll_eq_reverse]
    · rw [senderDrain_spec n hn q]
      simp [drainAll_eq_reverse]

/-- C6 counterexample: with `batch_size = 0` the stop test
`len(data) == batch_size` can never fire (len(data) is at least 1 after
the first pop), so one cycle drains the whole queue rather than
`min(batch_size, len(queue)) = 0` entries. -/
theorem c6_counterexample :
    (senderDrain 0 ["a"]).1 = ["a"] ∧
    (senderDrain 0 ["a"]).1.length ≠ min 0 (["a"] : List String).length := by
  constructor
  · rfl
  · decide

/-- C6 (amended): for `batch_size ≥ 1`, each sender cycle drains exactly
`min(batch_size, len(queue))` entries; whenever at least one entry is
drained the cycle issues a single POST whose body is the newline-join of
all drained entries; and with at least `batch_size + 1` queued entries
exactly `batch_size` are drained and the rest remain queued. -/
theorem c6_batch_drain (b : Nat) (q : List String) (hb : 1 ≤ b) :
    (senderDrain b q).1.length = min b q.length ∧
    (0 < min b q.length →
      (senderCycle b q).2.2 =
        some (String.intercalate "\n" (senderDrain b q).1)) ∧
    (b + 1 ≤ q.length →
      (senderDrain b q).1.length = b ∧
      (senderDrain b q).2.length = q.length - b) := by
  have hs := senderDrain_spec b hb q
  have hlen : (senderDrain b q).1.length = min b q.length := by
    rw [hs]
    simp [List.length_take]
  refine ⟨hlen, ?_, ?_⟩
  · intro hpos
    simp only [senderCycle]
    rw [if_pos (by rw [hlen]; exact hpos)]
  · intro hq
    have hble : b ≤ q.length := Nat.le_of_succ_le hq
    constructor
    · rw [hlen]
      exact Nat.min_eq_left hble
    · rw [hs]
      simp [List.length_drop]

/-- C6 amended, witness at `batch_size = 2` with three queued entries. -/
theorem c6_batch_drain_witness :
    1 ≤ 2 ∧
    ((senderDrain 2 ["c", "b", "a"]).1.length =
        min 2 (["c", "b", "a"] : List String).length ∧
     (0 < min 2 (["c", "b", "a"] : List String).length →
       (senderCycle 2 ["c", "b", "a"]).2.2 =
         some (String.intercalate "\n" (senderDrain 2 ["c", "b", "a"]).1)) ∧
     (2 + 1 ≤ (["c", "b", "a"] : List String).length →
       (senderDrain 2 ["c", "b", "a"]).1.length = 2 ∧
       (senderDrain 2 ["c", "b", "a"]).2.length =
         (["c", "b", "a"] : List String).length - 2)) :=
  ⟨by decide, c6_batch_drain 2 ["c", "b", "a"] (by decide)⟩

theorem bitSizeGo_le (fuel : Nat) :
    ∀ n k : Nat, n < 2 ^ k → k ≤ fuel → bitSizeGo fuel n ≤ k := by
  induction fuel with
  | zero =>
      intro n k hn hk
      simp [bitSizeGo]
  | succ fuel ih =>
      intro n k hn hk
      by_cases h0 : n = 0
      · simp [bitSizeGo, h0]
      · have hk1 : 1 ≤ k := by
          rcases Nat.eq_zero_or_pos k with rfl | h
          · simp at hn
            omega
          · exact h
        have hke : k - 1 + 1 = k := by omega
        have hdiv : n / 2 < 2 ^ (k - 1) := by
          rw [Nat.div_lt_iff_lt_mul (by norm_num : 0 < 2), ← pow_succ, hke]
          exact hn
        have hrec := ih (n / 2) (k - 1) hdiv (by omega)
        simp only [bitSizeGo, h0, if_false]
        omega

theorem bitSize_le (n k : Nat) (hn : n < 2 ^ k) (hk : k ≤ 1100) :
    bitSize n ≤ k :=
  bitSizeGo_le 1100 n k hn hk

/-- A value divisible by 2 to the power of its excess bits over 53 has an
exact double representation: the rounding of `roundF53` is the
identity. -/
theorem roundF53_exact_of_dvd (n : Nat)
    (hdvd : 2 ^ (bitSize n - 53) ∣ n) : roundF53 n = n := by
  unfold roundF53
  by_cases hle : n ≤ 2 ^ 53
  · rw [if_pos hle]
  · rw [if_neg hle]
    have hr : n % 2 ^ (bitSize n - 53) = 0 := Nat.mod_eq_zero_of_dvd hdvd
    have hhalf : 0 < 2 ^ (bitSize n - 53 - 1) := Nat.two_pow_pos _
    simp only [hr]
    rw [if_pos hhalf]
    exact Nat.div_mul_cancel hdvd

/-- Every nanosecond timestamp the grouping table produces from epoch
seconds below 2^32 (all of them until the year 2106) is exactly
double-representable: seconds times 10^9 carries a factor 2^9 and stays
below 2^62, so at most 9 low bits are shifted out, all zero. -/
theorem roundF53_sec_exact (sec : Nat) (h : sec < 2 ^ 32) :
    roundF53 (sec * 1000000000) = sec * 1000000000 := by
  apply roundF53_exact_of_dvd
  have hlt : sec * 1000000000 < 2 ^ 62 := by
    calc sec * 1000000000 < 2 ^ 32 * 1000000000 :=
          (Nat.mul_lt_mul_right (by norm_num)).mpr h
      _ ≤ 2 ^ 62 := by norm_num
  have hbs : bitSize (sec * 1000000000) ≤ 62 := bitSize_le _ 62 hlt (by norm_num)
  have hs : bitSize (sec * 1000000000) - 53 ≤ 9 := by omega
  have h9 : (2 : Nat) ^ 9 ∣ 1000000000 := by norm_num
  exact (pow_dvd_pow 2 hs).trans (h9.trans (dvd_mul_left 1000000000 sec))


/-- C9 counterexample: `_build_entry` renders the timestamp with
`'{:.0f}'.format`, which converts it to an IEEE-754 double; at the
timestamp 2^53 + 1 the rendered trailing segment is the rounded value
9007199254740992, not the timestamp itself. -/
theorem c9_counterexample :
    buildEntry "power" [("type", PVal.pstr "energy")]
        (FieldsArg.dict [("power", PVal.pstr "1i")]) (some 9007199254740993) =
      "power,type=energy power=1i 9007199254740992" ∧
    buildEntry "power" [("type", PVal.pstr "energy")]
        (FieldsArg.dict [("power", PVal.pstr "1i")]) (some 9007199254740993) ≠
      "power,type=energy power=1i 9007199254740993" := by
  constructor
  · decide
  · decide

/-- C9 (amended): the entry encoder produces the single line
`key,tag1=v1,... field1=enc1,... timestamp` — tags and fields
comma-joined in mapping iteration order, segments separated by single
spaces — where the trailing segment is the timestamp after IEEE-754
double rounding (`'{:.0f}'`), hence exactly the timestamp whenever the
timestamp is double-representable (`roundF53 ts = ts`); this holds in
particular for every seconds-times-10^9 timestamp the grouping table
produces with seconds below 2^32 — all epoch seconds until the year
2106 — which the last conjunct proves; when the timestamp is absent the
trailing segment, including its leading space, is omitted entirely. -/
theorem c9_entry_shape (key : String) (tags fields : List (String × PVal))
    (ts : Nat) (h : roundF53 ts = ts) :
    buildEntry key tags (FieldsArg.dict fields) (some ts) =
      key ++ "," ++
        String.intercalate "," (tags.map fun p => p.1 ++ "=" ++ pyStr p.2) ++
        " " ++
        String.intercalate "," (fields.map fun p => p.1 ++ "=" ++ pyStr p.2) ++
        " " ++ toString ts ∧
    buildEntry key tags (FieldsArg.dict fields) none =
      key ++ "," ++
        String.intercalate "," (tags.map fun p => p.1 ++ "=" ++ pyStr p.2) ++
        " " ++
        String.intercalate "," (fields.map fun p => p.1 ++ "=" ++ pyStr p.2) ∧
    (∀ sec : Nat, sec < 2 ^ 32 →
      roundF53 (sec * 1000000000) = sec * 1000000000) := by
  refine ⟨?_, ?_, fun sec hs => roundF53_sec_exact sec hs⟩
  · simp [buildEntry, joinKV, h, String.append_assoc]
  · simp [buildEntry, joinKV]

/-- C9 amended, witness at the specification's own example timestamp
1497677091000000000 (exactly representable in a double). -/
theorem c9_entry_shape_witness :
    roundF53 1497677091000000000 = 1497677091000000000 ∧
    (buildEntry "power"
        [("type", PVal.pstr "energy"), ("device", PVal.pstr "Meter\\ 1")]
        (FieldsArg.dict [("power", PVal.pstr "1234i")])
        (some 1497677091000000000) =
      "power" ++ "," ++
        String.intercalate ","
          ([("type", PVal.pstr "energy"), ("device", PVal.pstr "Meter\\ 1")].map
            fun p => p.1 ++ "=" ++ pyStr p.2) ++
        " " ++
        String.intercalate ","
          ([("power", PVal.pstr "1234i")].map fun p => p.1 ++ "=" ++ pyStr p.2) ++
        " " ++ toString 1497677091000000000 ∧
     buildEntry "power"
        [("type", PVal.pstr "energy"), ("device", PVal.pstr "Meter\\ 1")]
        (FieldsArg.dict [("power", PVal.pstr "1234i")]) none =
      "power" ++ "," ++
        String.intercalate ","
          ([("type", PVal.pstr "energy"), ("device", PVal.pstr "Meter\\ 1")].map
            fun p => p.1 ++ "=" ++ pyStr p.2) ++
        " " ++
        String.intercalate ","
          ([("power", PVal.pstr "1234i")].map fun p => p.1 ++ "=" ++ pyStr p.2) ∧
     (∀ sec : Nat, sec < 2 ^ 32 →
       roundF53 (sec * 1000000000) = sec * 1000000000)) :=
  ⟨by decide,
   c9_entry_shape "power"
     [("type", PVal.pstr "energy"), ("device", PVal.pstr "Meter\\ 1")]
     [("power", PVal.pstr "1234i")] 1497677091000000000 (by decide)⟩

/-! Path lemmas for `tryReceive`. -/

theorem tryReceive_disabled (st : PluginState) (m : Metric)
    (h : st.enabled = false) : tryReceive st m = Except.ok st := by
  simp [tryReceive, h]

theorem tryReceive_no_defs (st : PluginState) (m : Metric)
    (h : st.definitions = none) : tryReceive st m = Except.ok st := by
  cases he : st.enabled <;> simp [tryReceive, he, h]

theorem tryReceive_unknown_metric (st : PluginState) (m : Metric) (defs : Defs)
    (hd : st.definitions = some defs)
    (hlk : defsLookup defs m.source m.mtype m.metric = none) :
    tryReceive st m = Except.ok st := by
  cases he : st.enabled <;> simp [tryReceive, he, hd, hlk]

theorem tryReceive_ok (st : PluginState) (m : Metric) (defs : Defs)
    (dtags : List String) (tags : List (String × PVal))
    (hen : st.enabled = true) (hd : st.definitions = some defs)
    (hlk : defsLookup defs m.source m.mtype m.metric = some dtags)
    (htg : buildTags (pyLower m.source) dtags m.attrs = Except.ok tags) :
    tryReceive st m = Except.ok { st with
      pending := dset st.pending (pyLower m.source, m.mtype)
        (bucketStep dtags tags (m.timestamp * 1000000000) m.metric
          (encodeValue m.value)
          ((dget st.pending (pyLower m.source, m.mtype)).getD [])).1,
      sendQueue :=
        match (bucketStep dtags tags (m.timestamp * 1000000000) m.metric
          (encodeValue m.value)
          ((dget st.pending (pyLower m.source, m.mtype)).getD [])).2 with
        | some g =>
            buildEntry m.mtype g.tags (FieldsArg.dict g.fields) (some g.ts) ::
              st.sendQueue
        | none => st.sendQueue } := by
  simp [tryReceive, hen, hd, hlk, htg]

theorem tryReceive_key_error (st : PluginState) (m : Metric) (defs : Defs)
    (dtags : List String) (e : String)
    (hen : st.enabled = true) (hd : st.definitions = some defs)
    (hlk : defsLookup defs m.source m.mtype m.metric = some dtags)
    (htg : buildTags (pyLower m.source) dtags m.attrs = Except.error e) :
    tryReceive st m = Except.error e := by
  simp [tryReceive, hen, hd, hlk, htg]

/-- A successful ingestion pushes at most one rendered entry onto the
dispatch queue, and only onto its front. -/
theorem tryReceive_queue_growth (st : PluginState) (m : Metric)
    (st' : PluginState) (h : tryReceive st m = Except.ok st') :
    st'.sendQueue = st.sendQueue ∨
    ∃ g : PendingGroup, st'.sendQueue =
      buildEntry m.mtype g.tags (FieldsArg.dict g.fields) (some g.ts) ::
        st.sendQueue := by
  cases he : st.enabled with
  | false =>
      rw [tryReceive_disabled st m he] at h
      injection h with h
      exact Or.inl (h ▸ rfl)
  | true =>
      cases hd : st.definitions with
      | none =>
          rw [tryReceive_no_defs st m hd] at h
          injection h with h
          exact Or.inl (h ▸ rfl)
      | some defs =>
          cases hlk : defsLookup defs m.source m.mtype m.metric with
          | none =>
              rw [tryReceive_unknown_metric st m defs hd hlk] at h
              injection h with h
              exact Or.inl (h ▸ rfl)
          | some dtags =>
              cases htg : buildTags (pyLower m.source) dtags m.attrs with
              | error e =>
                  rw [tryReceive_key_error st m defs dtags e he hd hlk htg] at h
                  exact absurd h (by simp)
              | ok tags =>
                  rw [tryReceive_ok st m defs dtags tags he hd hlk htg] at h
                  injection h with h
                  subst h
                  cases hcl : (bucketStep dtags tags (m.timestamp * 1000000000)
                      m.metric (encodeValue m.value)
                      ((dget st.pending (pyLower m.source, m.mtype)).getD [])).2 with
                  | none => exact Or.inl (by simp [hcl])
                  | some g => exact Or.inr ⟨g, by simp [hcl]⟩

/-- C7: ingestion never propagates an exception to the caller:
`receiveMetricData` either returns the state unchanged (every error of
the body is caught and the sample dropped) or the successful result of
the body; and in each of the three drop situations — feature disabled,
definitions not yet loaded, or no definition for the sample's (source,
family, name) — it returns with the grouping table and the dispatch
queue exactly as they were, producing no queue entry. -/
theorem c7_ingest_never_raises (st : PluginState) (m : Metric) :
    (receiveMetricData st m = st ∨
      tryReceive st m = Except.ok (receiveMetricData st m)) ∧
    (∀ e, tryReceive st m = Except.error e → receiveMetricData st m = st) ∧
    (st.enabled = false → receiveMetricData st m = st) ∧
    (st.definitions = none → receiveMetricData st m = st) ∧
    (∀ d, st.definitions = some d →
      defsLookup d m.source m.mtype m.metric = none →
      receiveMetricData st m = st) := by
  refine ⟨?_, ?_, ?_, ?_, ?_⟩
  · cases h : tryReceive st m with
    | ok st' => exact Or.inr (by simp [receiveMetricData, h])
    | error e => exact Or.inl (by simp [receiveMetricData, h])
  · intro e h
    simp [receiveMetricData, h]
  · intro h
    simp [receiveMetricData, tryReceive_disabled st m h]
  · intro h
    simp [receiveMetricData, tryReceive_no_defs st m h]
  · intro d hd hlk
    simp [receiveMetricData, tryReceive_unknown_metric st m d hd hlk]

/-- C7 witness: a sample whose (source, family, name) has no definition
is dropped without touching the state. -/
theorem c7_ingest_never_raises_witness :
    (PluginState.mk true (some []) [] []).definitions = some [] ∧
    defsLookup [] "s" "f" "p" = none ∧
    receiveMetricData (PluginState.mk true (some []) [] [])
      (Metric.mk "s" "f" "p" 0 (PVal.pint 0) []) =
      PluginState.mk true (some []) [] [] :=
  ⟨rfl, rfl,
   (c7_ingest_never_raises (PluginState.mk true (some []) [] [])
     (Metric.mk "s" "f" "p" 0 (PVal.pint 0) [])).2.2.2.2 [] rfl rfl⟩

/-- C3: at most one open group is closed per incoming sample (the queue
grows by at most one entry per ingestion); a sample that merges closes
nothing and starts no new group (the `found` flag excludes both); and for
two samples of the same identity at timestamps T1 then T2 with T2 ≠ T1,
the first call opens the T1 group, and the second call renders and
pushes exactly one closed entry for T1 while creating the new open group
at T2. -/
theorem c3_close_merge_discipline :
    (∀ (st : PluginState) (m : Metric) (st' : PluginState),
      tryReceive st m = Except.ok st' →
      st'.sendQueue.length ≤ st.sendQueue.length + 1) ∧
    (∀ (dtags : List String) (tags : List (String × PVal)) (ts : Nat)
       (name : String) (v : PVal) (entries : List PendingGroup),
      (scanGroups dtags tags ts name v entries).2.2 = true →
      (scanGroups dtags tags ts name v entries).2.1 = none) ∧
    (∀ (q0 : List String) (defsv : Defs) (src fam nm : String)
       (attrs : List (String × PVal)) (dtags : List String)
       (tags : List (String × PVal)) (t1 t2 : Nat) (v1 v2 : PVal),
      defsLookup defsv src fam nm = some dtags →
      buildTags (pyLower src) dtags attrs = Except.ok tags →
      t1 ≠ t2 →
      tryReceive (PluginState.mk true (some defsv) [] q0)
          (Metric.mk src fam nm t1 v1 attrs) =
        Except.ok (PluginState.mk true (some defsv)
          [((pyLower src, fam),
            [PendingGroup.mk (t1 * 1000000000) tags [(nm, encodeValue v1)]])]
          q0) ∧
      tryReceive (PluginState.mk true (some defsv)
          [((pyLower src, fam),
            [PendingGroup.mk (t1 * 1000000000) tags [(nm, encodeValue v1)]])]
          q0)
          (Metric.mk src fam nm t2 v2 attrs) =
        Except.ok (PluginState.mk true (some defsv)
          [((pyLower src, fam),
            [PendingGroup.mk (t2 * 1000000000) tags [(nm, encodeValue v2)]])]
          (buildEntry fam tags (FieldsArg.dict [(nm, encodeValue v1)])
            (some (t1 * 1000000000)) :: q0))) := by
  refine ⟨?_, ?_, ?_⟩
  · intro st m st' h
    rcases tryReceive_queue_growth st m st' h with hq | ⟨g, hq⟩
    · rw [hq]
      exact Nat.le_succ _
    · rw [hq]
      simp
  · intro dtags tags ts name v entries
    induction entries with
    | nil => intro h; simp [scanGroups] at h
    | cons g rest ih =>
        intro h
        by_cases hg : tagsAgree dtags tags g.tags
        · by_cases hts : g.ts = ts
          · simp [scanGroups, hg, hts]
          · simp [scanGroups, hg, hts] at h
        · simp [scanGroups, hg] at h ⊢
          exact ih h
  · intro q0 defsv src fam nm attrs dtags tags t1 t2 v1 v2 hlk htg hne
    have hne' : t1 * 1000000000 ≠ t2 * 1000000000 := by
      intro hc
      exact hne (by omega)
    constructor
    · rw [tryReceive_ok (PluginState.mk true (some defsv) [] q0)
        (Metric.mk src fam nm t1 v1 attrs) defsv dtags tags rfl rfl hlk htg]
      simp [bucketStep, scanGroups, dget, dset]
    · rw [tryReceive_ok (PluginState.mk true (some defsv)
          [((pyLower src, fam),
            [PendingGroup.mk (t1 * 1000000000) tags [(nm, encodeValue v1)]])] q0)
        (Metric.mk src fam nm t2 v2 attrs) defsv dtags tags rfl rfl hlk htg]
      simp [bucketStep, scanGroups, dget, dset, tagsAgree_refl, hne']

/-- C3 witness: one concrete identity observed at timestamps 1 and 2. -/
theorem c3_close_merge_discipline_witness :
    defsLookup [("s", [("f", [("p", ["id"])])])] "s" "f" "p" = some ["id"] ∧
    buildTags (pyLower "s") ["id"] [("id", PVal.pint 7)] =
      Except.ok [("type", PVal.pstr "s"), ("id", PVal.pint 7)] ∧
    (1 : Nat) ≠ 2 ∧
    (tryReceive (PluginState.mk true (some [("s", [("f", [("p", ["id"])])])]) [] [])
        (Metric.mk "s" "f" "p" 1 (PVal.pint 10) [("id", PVal.pint 7)]) =
      Except.ok (PluginState.mk true (some [("s", [("f", [("p", ["id"])])])])
        [((pyLower "s", "f"),
          [PendingGroup.mk (1 * 1000000000)
            [("type", PVal.pstr "s"), ("id", PVal.pint 7)]
            [("p", encodeValue (PVal.pint 10))]])]
        []) ∧
     tryReceive (PluginState.mk true (some [("s", [("f", [("p", ["id"])])])])
        [((pyLower "s", "f"),
          [PendingGroup.mk (1 * 1000000000)
            [("type", PVal.pstr "s"), ("id", PVal.pint 7)]
            [("p", encodeValue (PVal.pint 10))]])]
        [])
        (Metric.mk "s" "f" "p" 2 (PVal.pint 11) [("id", PVal.pint 7)]) =
      Except.ok (PluginState.mk true (some [("s", [("f", [("p", ["id"])])])])
        [((pyLower "s", "f"),
          [PendingGroup.mk (2 * 1000000000)
            [("type", PVal.pstr "s"), ("id", PVal.pint 7)]
            [("p", encodeValue (PVal.pint 11))]])]
        (buildEntry "f" [("type", PVal.pstr "s"), ("id", PVal.pint 7)]
          (FieldsArg.dict [("p", encodeValue (PVal.pint 10))])
          (some (1 * 1000000000)) :: []))) :=
  ⟨rfl, rfl, by decide,
   (c3_close_merge_discipline).2.2 [] [("s", [("f", [("p", ["id"])])])]
     "s" "f" "p" [("id", PVal.pint 7)] ["id"]
     [("type", PVal.pstr "s"), ("id", PVal.pint 7)] 1 2
     (PVal.pint 10) (PVal.pint 11) rfl rfl (by decide)⟩

/-- C10: when a sample's bucket, matching group and timestamp line up and
the group already holds a field under the sample's metric name, the
merge silently overwrites the stored encoded value with the new one
(last write wins); the group's field-name set is unchanged and no entry
is pushed to the dispatch queue for the displaced value. -/
theorem c10_merge_last_write_wins (st : PluginState) (m : Metric) (d : Defs)
    (dtags : List String) (tags : List (String × PVal))
    (pre post : List PendingGroup) (g : PendingGroup)
    (hen : st.enabled = true) (hd : st.definitions = some d)
    (hlk : defsLookup d m.source m.mtype m.metric = some dtags)
    (htg : buildTags (pyLower m.source) dtags m.attrs = Except.ok tags)
    (hbucket : dget st.pending (pyLower m.source, m.mtype) =
      some (pre ++ g :: post))
    (hpre : ∀ h ∈ pre, tagsAgree dtags tags h.tags = false)
    (hg : tagsAgree dtags tags g.tags = true)
    (hts : g.ts = m.timestamp * 1000000000)
    (hmem : m.metric ∈ g.fields.map Prod.fst) :
    tryReceive st m = Except.ok { st with
      pending := dset st.pending (pyLower m.source, m.mtype)
        (pre ++ ⟨g.ts, g.tags, dset g.fields m.metric (encodeValue m.value)⟩ ::
          post) } ∧
    (dset g.fields m.metric (encodeValue m.value)).map Prod.fst =
      g.fields.map Prod.fst ∧
    dget (dset g.fields m.metric (encodeValue m.value)) m.metric =
      some (encodeValue m.value) := by
  refine ⟨?_, dset_keys_of_mem g.fields m.metric (encodeValue m.value) hmem,
    dget_dset_self g.fields m.metric (encodeValue m.value)⟩
  rw [tryReceive_ok st m d dtags tags hen hd hlk htg]
  have hscan := scanGroups_first_hit dtags tags (m.timestamp * 1000000000)
    m.metric (encodeValue m.value) pre g post hpre hg
  rw [if_pos hts] at hscan
  simp [bucketStep, hbucket, hscan, hts]

/-- C10 witness: a field `p` already present at the matching timestamp is
overwritten by a new value, with nothing queued. -/
theorem c10_merge_last_write_wins_witness :
    (PluginState.mk true (some [("s", [("f", [("p", ["id"])])])])
        [((pyLower "s", "f"),
          [PendingGroup.mk 1000000000
            [("type", PVal.pstr "s"), ("id", PVal.pint 7)]
            [("p", PVal.pstr "9i")]])]
        ["old"]).enabled = true ∧
    ((∀ h ∈ ([] : List PendingGroup),
        tagsAgree ["id"] [("type", PVal.pstr "s"), ("id", PVal.pint 7)] h.tags =
          false) ∧
     tagsAgree ["id"] [("type", PVal.pstr "s"), ("id", PVal.pint 7)]
       (PendingGroup.mk 1000000000
         [("type", PVal.pstr "s"), ("id", PVal.pint 7)]
         [("p", PVal.pstr "9i")]).tags = true ∧
     "p" ∈ (PendingGroup.mk 1000000000
         [("type", PVal.pstr "s"), ("id", PVal.pint 7)]
         [("p", PVal.pstr "9i")]).fields.map Prod.fst) ∧
    (tryReceive
        (PluginState.mk true (some [("s", [("f", [("p", ["id"])])])])
          [((pyLower "s", "f"),
            [PendingGroup.mk 1000000000
              [("type", PVal.pstr "s"), ("id", PVal.pint 7)]
              [("p", PVal.pstr "9i")]])]
          ["old"])
        (Metric.mk "s" "f" "p" 1 (PVal.pint 10) [("id", PVal.pint 7)]) =
      Except.ok (PluginState.mk true (some [("s", [("f", [("p", ["id"])])])])
        (dset
          [((pyLower "s", "f"),
            [PendingGroup.mk 1000000000
              [("type", PVal.pstr "s"), ("id", PVal.pint 7)]
              [("p", PVal.pstr "9i")]])]
          (pyLower "s", "f")
          ([] ++ PendingGroup.mk 1000000000
              [("type", PVal.pstr "s"), ("id", PVal.pint 7)]
              (dset [("p", PVal.pstr "9i")] "p" (encodeValue (PVal.pint 10))) ::
            []))
        ["old"]) ∧
     (dset [("p", PVal.pstr "9i")] "p" (encodeValue (PVal.pint 10))).map
        Prod.fst = [("p", PVal.pstr "9i")].map Prod.fst ∧
     dget (dset [("p", PVal.pstr "9i")] "p" (encodeValue (PVal.pint 10))) "p" =
       some (encodeValue (PVal.pint 10))) :=
  ⟨rfl, ⟨by simp, rfl, by decide⟩,
   c10_merge_last_write_wins
     (PluginState.mk true (some [("s", [("f", [("p", ["id"])])])])
       [((pyLower "s", "f"),
         [PendingGroup.mk 1000000000
           [("type", PVal.pstr "s"), ("id", PVal.pint 7)]
           [("p", PVal.pstr "9i")]])]
       ["old"])
     (Metric.mk "s" "f" "p" 1 (PVal.pint 10) [("id", PVal.pint 7)])
     [("s", [("f", [("p", ["id"])])])] ["id"]
     [("type", PVal.pstr "s"), ("id", PVal.pint 7)] [] []
     (PendingGroup.mk 1000000000
       [("type", PVal.pstr "s"), ("id", PVal.pint 7)]
       [("p", PVal.pstr "9i")])
     rfl rfl rfl rfl rfl (by simp) rfl (by decide) (by decide)⟩

theorem tagsAgree_false_symm (dtags : List String)
    (a b : List (String × PVal)) (h : tagsAgree dtags a b = false) :
    tagsAgree dtags b a = false := by
  cases hba : tagsAgree dtags b a with
  | false => rfl
  | true => exact absurd (tagsAgree_symm dtags b a hba) (by simp [h])

/-- C1 counterexample: the second sample's TagSet is `{type: s}`, yet it
is merged into the open group whose TagSet is `{type: s, k: v}` — the
scan compares only the keys of the incoming sample's definition tag
list (here none), not TagSet equality.  After the two ingestions the
group holds both fields while its TagSet differs from the second
sample's TagSet. -/
theorem c1_counterexample :
    dget stC1.pending ("s", "f") =
      some [PendingGroup.mk 1000000000
        [("type", PVal.pstr "s"), ("k", PVal.pstr "v")]
        [("a", PVal.pstr "1i"), ("b", PVal.pstr "2i")]] ∧
    buildTags (pyLower "s") [] [] = Except.ok [("type", PVal.pstr "s")] ∧
    ([("type", PVal.pstr "s")] : List (String × PVal)) ≠
      [("type", PVal.pstr "s"), ("k", PVal.pstr "v")] := by
  refine ⟨by decide, rfl, by decide⟩

/-- C1 (amended): the grouping table scans the open groups of the bucket
in insertion order and selects, for merge (equal timestamp) or close
(different timestamp), the first open group whose stored tags agree with
the sample's tags on every key of the sample's definition's tag-key list;
full TagSet equality is not required (the `type` key and any keys outside
that list are not compared), and a group that disagrees on some
definition tag key is never merged into and never closed by that
sample. -/
theorem c1_scan_first_agreeing (dtags : List String)
    (tags : List (String × PVal)) (ts : Nat) (name : String) (v : PVal)
    (pre post : List PendingGroup) (g : PendingGroup)
    (hpre : ∀ h ∈ pre, tagsAgree dtags tags h.tags = false)
    (hg : tagsAgree dtags tags g.tags = true) :
    scanGroups dtags tags ts name v (pre ++ g :: post) =
      (if g.ts = ts then
        (pre ++ ⟨g.ts, g.tags, dset g.fields name v⟩ :: post, none, true)
       else (pre ++ post, some g, false)) ∧
    (∀ entries : List PendingGroup,
      (∀ h ∈ entries, tagsAgree dtags tags h.tags = false) →
      scanGroups dtags tags ts name v entries = (entries, none, false)) :=
  ⟨scanGroups_first_hit dtags tags ts name v pre g post hpre hg,
   fun entries h => scanGroups_no_match dtags tags ts name v entries h⟩

/-- C1 amended, witness: a non-agreeing group ahead of the agreeing one
is skipped, and the agreeing group (here with a different timestamp) is
the one closed. -/
theorem c1_scan_first_agreeing_witness :
    (∀ h ∈ [PendingGroup.mk 5
        [("type", PVal.pstr "s"), ("k", PVal.pstr "u")] []],
      tagsAgree ["k"] [("type", PVal.pstr "s"), ("k", PVal.pstr "v")] h.tags =
        false) ∧
    tagsAgree ["k"] [("type", PVal.pstr "s"), ("k", PVal.pstr "v")]
      (PendingGroup.mk 7 [("type", PVal.pstr "s"), ("k", PVal.pstr "v")]
        [("a", PVal.pstr "1i")]).tags = true ∧
    (scanGroups ["k"] [("type", PVal.pstr "s"), ("k", PVal.pstr "v")] 9 "a"
        (PVal.pstr "2i")
        ([PendingGroup.mk 5 [("type", PVal.pstr "s"), ("k", PVal.pstr "u")] []] ++
          PendingGroup.mk 7 [("type", PVal.pstr "s"), ("k", PVal.pstr "v")]
            [("a", PVal.pstr "1i")] :: []) =
      (if (PendingGroup.mk 7 [("type", PVal.pstr "s"), ("k", PVal.pstr "v")]
            [("a", PVal.pstr "1i")]).ts = 9 then
        ([PendingGroup.mk 5 [("type", PVal.pstr "s"), ("k", PVal.pstr "u")] []] ++
          ⟨(PendingGroup.mk 7 [("type", PVal.pstr "s"), ("k", PVal.pstr "v")]
              [("a", PVal.pstr "1i")]).ts,
            (PendingGroup.mk 7 [("type", PVal.pstr "s"), ("k", PVal.pstr "v")]
              [("a", PVal.pstr "1i")]).tags,
            dset (PendingGroup.mk 7 [("type", PVal.pstr "s"), ("k", PVal.pstr "v")]
              [("a", PVal.pstr "1i")]).fields "a" (PVal.pstr "2i")⟩ :: [],
          none, true)
       else
        ([PendingGroup.mk 5 [("type", PVal.pstr "s"), ("k", PVal.pstr "u")] []] ++
          [], some (PendingGroup.mk 7
            [("type", PVal.pstr "s"), ("k", PVal.pstr "v")]
            [("a", PVal.pstr "1i")]), false)) ∧
     (∀ entries : List PendingGroup,
       (∀ h ∈ entries,
         tagsAgree ["k"] [("type", PVal.pstr "s"), ("k", PVal.pstr "v")] h.tags =
           false) →
       scanGroups ["k"] [("type", PVal.pstr "s"), ("k", PVal.pstr "v")] 9 "a"
         (PVal.pstr "2i") entries = (entries, none, false))) :=
  ⟨by decide, by decide,
   c1_scan_first_agreeing ["k"] [("type", PVal.pstr "s"), ("k", PVal.pstr "v")]
     9 "a" (PVal.pstr "2i")
     [PendingGroup.mk 5 [("type", PVal.pstr "s"), ("k", PVal.pstr "u")] []] []
     (PendingGroup.mk 7 [("type", PVal.pstr "s"), ("k", PVal.pstr "v")]
       [("a", PVal.pstr "1i")])
     (by decide) (by decide)⟩

/-- C4 counterexample: after the fourth ingestion call the (s, f) bucket
holds two open groups with the identical TagSet — the invariant "at most
one open group per distinct TagSet" fails when metrics of one family
declare different tag-key lists. -/
theorem c4_counterexample :
    ((dget stC4.pending ("s", "f")).getD []).map PendingGroup.tags =
      [[("type", PVal.pstr "s"), ("k", PVal.pstr "v")],
       [("type", PVal.pstr "s"), ("k", PVal.pstr "v")]] := by
  decide

/-- C4 (amended): fix one definition tag-key list for a bucket (the
situation whenever all metrics of a family declare the same tag keys);
then the bucket invariant holds: no two open groups agree on those keys
(hence at most one open group per TagSet), every group surviving an
ingestion is either the freshly opened group or an old group with the
same timestamp and tags whose field-name set only grew (a merge never
removes a field name), and a closed group was a member of the bucket and
is removed, the fresh group taking its place. -/
theorem c4_bucket_invariants (dtags : List String)
    (tags : List (String × PVal)) (ts : Nat) (name : String) (v : PVal)
    (entries : List PendingGroup)
    (hInv : entries.Pairwise fun g h => tagsAgree dtags g.tags h.tags = false) :
    ((bucketStep dtags tags ts name v entries).1.Pairwise
      fun g h => tagsAgree dtags g.tags h.tags = false) ∧
    (∀ g' ∈ (bucketStep dtags tags ts name v entries).1,
      g' = ⟨ts, tags, [(name, v)]⟩ ∨
      ∃ g ∈ entries, g'.ts = g.ts ∧ g'.tags = g.tags ∧
        ∀ k ∈ g.fields.map Prod.fst, k ∈ g'.fields.map Prod.fst) ∧
    (∀ g, (bucketStep dtags tags ts name v entries).2 = some g →
      g ∈ entries ∧
      (bucketStep dtags tags ts name v entries).1.length = entries.length) := by
  rcases scanGroups_cases dtags tags entries with hnone | ⟨pre, g, post, rfl, hpre, hg⟩
  · have hscan := scanGroups_no_match dtags tags ts name v entries hnone
    have hb1 : (bucketStep dtags tags ts name v entries).1 =
        entries ++ [⟨ts, tags, [(name, v)]⟩] := by
      simp [bucketStep, hscan]
    have hb2 : (bucketStep dtags tags ts name v entries).2 = none := by
      simp [bucketStep, hscan]
    refine ⟨?_, ?_, ?_⟩
    · rw [hb1, List.pairwise_append]
      refine ⟨hInv, List.pairwise_singleton _ _, ?_⟩
      intro a ha b hb
      rw [List.mem_singleton] at hb
      subst hb
      exact tagsAgree_false_symm dtags tags a.tags (hnone a ha)
    · intro g' hg'
      rw [hb1] at hg'
      rcases List.mem_append.mp hg' with hmem | hmem
      · exact Or.inr ⟨g', hmem, rfl, rfl, fun k hk => hk⟩
      · rw [List.mem_singleton] at hmem
        exact Or.inl hmem
    · intro g0 hcl
      rw [hb2] at hcl
      exact absurd hcl (by simp)
  · have hscan := scanGroups_first_hit dtags tags ts name v pre g post hpre hg
    rw [List.pairwise_append] at hInv
    obtain ⟨hppre, hpcons, hcross⟩ := hInv
    rw [List.pairwise_cons] at hpcons
    obtain ⟨hgpost, hppost⟩ := hpcons
    by_cases hts : g.ts = ts
    · rw [if_pos hts] at hscan
      have hb1 : (bucketStep dtags tags ts name v (pre ++ g :: post)).1 =
          pre ++ ⟨g.ts, g.tags, dset g.fields name v⟩ :: post := by
        simp [bucketStep, hscan]
      have hb2 : (bucketStep dtags tags ts name v (pre ++ g :: post)).2 =
          none := by
        simp [bucketStep, hscan]
      refine ⟨?_, ?_, ?_⟩
      · rw [hb1, List.pairwise_append, List.pairwise_cons]
        refine ⟨hppre, ⟨fun b hb => hgpost b hb, hppost⟩, ?_⟩
        intro a ha b hb
        rcases List.mem_cons.mp hb with hb | hb
        · subst hb
          exact hcross a ha g (List.mem_cons_self g post)
        · exact hcross a ha b (List.mem_cons_of_mem g hb)
      · intro g' hg'
        rw [hb1] at hg'
        rcases List.mem_append.mp hg' with hmem | hmem
        · exact Or.inr ⟨g', List.mem_append.mpr (Or.inl hmem), rfl, rfl,
            fun k hk => hk⟩
        · rcases List.mem_cons.mp hmem with hb | hb
          · subst hb
            exact Or.inr ⟨g, List.mem_append.mpr
              (Or.inr (List.mem_cons_self g post)), rfl, rfl,
              fun k hk => dset_keys_mono g.fields name v k hk⟩
          · exact Or.inr ⟨g', List.mem_append.mpr
              (Or.inr (List.mem_cons_of_mem g hb)), rfl, rfl, fun k hk => hk⟩
      · intro g0 hcl
        rw [hb2] at hcl
        exact absurd hcl (by simp)
    · rw [if_neg hts] at hscan
      have hb1 : (bucketStep dtags tags ts name v (pre ++ g :: post)).1 =
          pre ++ post ++ [⟨ts, tags, [(name, v)]⟩] := by
        simp [bucketStep, hscan]
      have hb2 : (bucketStep dtags tags ts name v (pre ++ g :: post)).2 =
          some g := by
        simp [bucketStep, hscan]
      refine ⟨?_, ?_, ?_⟩
      · rw [hb1, List.pairwise_append]
        refine ⟨?_, List.pairwise_singleton _ _, ?_⟩
        · rw [List.pairwise_append]
          exact ⟨hppre, hppost, fun a ha b hb =>
            hcross a ha b (List.mem_cons_of_mem g hb)⟩
        · intro a ha b hb
          rw [List.mem_singleton] at hb
          subst hb
          rcases List.mem_append.mp ha with hmem | hmem
          · exact tagsAgree_false_symm dtags tags a.tags (hpre a hmem)
          · cases hagree : tagsAgree dtags a.tags tags with
            | false => rfl
            | true =>
                have h1 : tagsAgree dtags tags a.tags = true :=
                  tagsAgree_symm dtags a.tags tags hagree
                have h2 : tagsAgree dtags g.tags a.tags = true :=
                  tagsAgree_trans dtags tags g.tags a.tags hg h1
                exact absurd h2 (by simp [hgpost a hmem])
      · intro g' hg'
        rw [hb1] at hg'
        rcases List.mem_append.mp hg' with hmem | hmem
        · rcases List.mem_append.mp hmem with hmem | hmem
          · exact Or.inr ⟨g', List.mem_append.mpr (Or.inl hmem), rfl, rfl,
              fun k hk => hk⟩
          · exact Or.inr ⟨g', List.mem_append.mpr
              (Or.inr (List.mem_cons_of_mem g hmem)), rfl, rfl,
              fun k hk => hk⟩
        · rw [List.mem_singleton] at hmem
          exact Or.inl hmem
      · intro g0 hcl
        rw [hb2, Option.some_inj] at hcl
        subst hcl
        refine ⟨List.mem_append.mpr (Or.inr (List.mem_cons_self _ post)), ?_⟩
        rw [hb1]
        simp only [List.length_append, List.length_cons, List.length_nil]
        omega

/-- C4 amended, witness: one ingestion into an empty bucket opens the
fresh group and preserves the invariant. -/
theorem c4_bucket_invariants_witness :
    (([] : List PendingGroup).Pairwise
      fun g h => tagsAgree ["k"] g.tags h.tags = false) ∧
    (((bucketStep ["k"] [("type", PVal.pstr "s"), ("k", PVal.pstr "v")] 1 "p"
        (PVal.pstr "1i") []).1.Pairwise
      fun g h => tagsAgree ["k"] g.tags h.tags = false) ∧
     (∀ g' ∈ (bucketStep ["k"] [("type", PVal.pstr "s"), ("k", PVal.pstr "v")]
        1 "p" (PVal.pstr "1i") []).1,
       g' = ⟨1, [("type", PVal.pstr "s"), ("k", PVal.pstr "v")],
         [("p", PVal.pstr "1i")]⟩ ∨
       ∃ g ∈ ([] : List PendingGroup), g'.ts = g.ts ∧ g'.tags = g.tags ∧
         ∀ k ∈ g.fields.map Prod.fst, k ∈ g'.fields.map Prod.fst) ∧
     (∀ g, (bucketStep ["k"] [("type", PVal.pstr "s"), ("k", PVal.pstr "v")]
        1 "p" (PVal.pstr "1i") []).2 = some g →
       g ∈ ([] : List PendingGroup) ∧
       (bucketStep ["k"] [("type", PVal.pstr "s"), ("k", PVal.pstr "v")] 1 "p"
         (PVal.pstr "1i") []).1.length = ([] : List PendingGroup).length)) :=
  ⟨List.Pairwise.nil,
   c4_bucket_invariants ["k"] [("type", PVal.pstr "s"), ("k", PVal.pstr "v")]
     1 "p" (PVal.pstr "1i") [] List.Pairwise.nil⟩
